import Mathlib

/-!  Shallow embedding of the `template_ffd` model builder
(`model/template_ffd_builder.py`): the FFD reconstruction contraction, the
mixture loss engine (weighted Chamfer loss, entropy and deformation
regularizers with annealed weights), and the prediction post-processors.

Scalars are modelled by `ℚ`; the external primitives `tf.log` and `tf.exp`
are passed as explicit function arguments `rlog` and `rexp`.  Batched
tensors are modelled as functions of their indices together with explicit
dimension arguments; per-template matrices are lists of rows.  A separate
real-number semantics (`Real.log`) is given for the entropy term, where the
analytic behaviour of the logarithm matters. -/

/-- A matrix (a basis `B`, control points `P`, a deformation block, or a point
cloud), as a list of rows of rationals. -/
abbrev Mat : Type := List (List ℚ)

/-- Dot product of two rows. -/
def dot (xs ys : List ℚ) : ℚ := (List.zipWith (· * ·) xs ys).sum

/-- Matrix product: `np.matmul`, and the `einsum` contraction over the
control-point index. -/
def matMul (a b : Mat) : Mat :=
  a.map (fun row => b.transpose.map (fun col => dot row col))

/-- Elementwise matrix sum, as in `p + dp`. -/
def matAdd (a b : Mat) : Mat := List.zipWith (List.zipWith (· + ·)) a b

/-- Squared Euclidean distance between two points (rows). -/
def sqDist (p q : List ℚ) : ℚ :=
  ((List.zipWith (· - ·) p q).map (fun d => d ^ 2)).sum

/-- Minimum of a list of rationals (`0` on the empty list). -/
def minD : List ℚ → ℚ
  | [] => 0
  | x :: xs => xs.foldl min x

/-- Modelled from the spec: the symmetric Chamfer distance of §4.3 ("for each
point in set A, the squared distance to its nearest neighbor in set B, summed
with the symmetric term"); its implementation
(`template_ffd.metrics.tf_impl.tf_metrics.chamfer`) is not among the sources
under verification. -/
def chamfer (a b : Mat) : ℚ :=
  (a.map (fun p => minD (b.map (fun q => sqDist p q)))).sum +
  (b.map (fun q => minD (a.map (fun p => sqDist p q)))).sum

/-- `get_inferred_point_clouds`: the `einsum('ijk,likm->lijm', b, p + dp)`
contraction, `cloud l i = b i ⬝ (p i + dp l i)`. -/
def get_inferred_point_clouds (b p : ℕ → Mat) (dp : ℕ → ℕ → Mat)
    (l i : ℕ) : Mat :=
  matMul (b i) (matAdd (p i) (dp l i))

/-- `get_chamfer_loss`: per-template Chamfer distances against the ground
truth, weighted elementwise by `gamma` and summed over the batch (`nB`) and
the templates (`nT`). -/
def get_chamfer_loss (nB nT : ℕ) (gamma : ℕ → ℕ → ℚ) (b p : ℕ → Mat)
    (dp : ℕ → ℕ → Mat) (ground_truth_cloud : ℕ → Mat) : ℚ :=
  ∑ l in Finset.range nB, ∑ i in Finset.range nT,
    gamma l i *
      chamfer (get_inferred_point_clouds b p dp l i) (ground_truth_cloud l)

/-- `linear_annealing_factor`, with the global step passed explicitly. -/
def linear_annealing_factor (cutoff step : ℚ) : ℚ := max (1 - step / cutoff) 0

/-- `exp_annealing_factor`, with `tf.exp` abstracted as `rexp` and the global
step passed explicitly. -/
def exp_annealing_factor (rexp : ℚ → ℚ) (rate step : ℚ) : ℚ :=
  rexp (-(step * rate))

/-- `annealed_weight`: dispatch on which annealing schedule is configured;
configuring both schedules is a `ValueError`. -/
def annealed_weight (rexp : ℚ → ℚ) (weight : ℚ)
    (linear_annealing_cutoff exp_annealing_rate : Option ℚ) (step : ℚ) :
    Except String ℚ :=
  match linear_annealing_cutoff with
  | none =>
    match exp_annealing_rate with
    | none => .ok weight
    | some rate => .ok (weight * exp_annealing_factor rexp rate step)
  | some cutoff =>
    match exp_annealing_rate with
    | none => .ok (weight * linear_annealing_factor cutoff step)
    | some _ =>
      .error ("At least one of `linear_annealing_cutoff` or " ++
        "`exp_annealing_rate` must be `None`")

/-- `get_entropy_loss`: negative entropy of the batch-averaged probabilities,
times the annealed weight (`tf.log` abstracted as `rlog`). -/
def get_entropy_loss (rlog rexp : ℚ → ℚ) (nB nT : ℕ) (probs : ℕ → ℕ → ℚ)
    (weight : ℚ) (linear_annealing_cutoff exp_annealing_rate : Option ℚ)
    (step : ℚ) : Except String ℚ := do
  let mean_probs : ℕ → ℚ := fun t => (∑ l in Finset.range nB, probs l t) / nB
  let entropy_loss := ∑ t in Finset.range nT, mean_probs t * rlog (mean_probs t)
  let weight ← annealed_weight rexp weight linear_annealing_cutoff
    exp_annealing_rate step
  return entropy_loss * weight

/-- Sum of the squared entries of one `K×3` deformation block (the
`tf.reduce_sum(dp**2, axis=(2, 3))` reduction at one `(batch, template)`). -/
def sqSum (m : Mat) : ℚ := (m.map (fun row => (row.map (fun x => x ^ 2)).sum)).sum

/-- `get_dp_reg_loss`: deformation-magnitude regularizer, either uniform over
all templates or weighted per template by `probs`, times the annealed
weight. -/
def get_dp_reg_loss (rexp : ℚ → ℚ) (uniform : Bool) (nB nT : ℕ)
    (probs : ℕ → ℕ → ℚ) (dp : ℕ → ℕ → Mat) (weight : ℚ)
    (linear_annealing_cutoff exp_annealing_rate : Option ℚ) (step : ℚ) :
    Except String ℚ := do
  let reg_loss :=
    if uniform then
      ∑ l in Finset.range nB, ∑ i in Finset.range nT, sqSum (dp l i)
    else
      ∑ l in Finset.range nB, ∑ i in Finset.range nT, sqSum (dp l i) * probs l i
  let weight ← annealed_weight rexp weight linear_annealing_cutoff
    exp_annealing_rate step
  return reg_loss * weight

/-- Configuration of one annealed regularizer weight (the keyword arguments
forwarded to `annealed_weight`). -/
structure WeightParams where
  weight : ℚ
  linear_annealing_cutoff : Option ℚ := none
  exp_annealing_rate : Option ℚ := none

/-- Configuration of the deformation regularizer (`dp_regularization`
params; `uniform` is popped off before the rest reaches `annealed_weight`). -/
structure DpRegParams extends WeightParams where
  uniform : Bool := false

/-- `get_inference_loss`: dispatch on the `gamma` mode string, then the
weighted Chamfer loss plus the optional entropy and deformation
regularizers. -/
def get_inference_loss (rlog rexp : ℚ → ℚ) (gamma_code : String)
    (entropy_params : Option WeightParams) (dp_reg_params : Option DpRegParams)
    (nB nT : ℕ) (probs : ℕ → ℕ → ℚ) (dp : ℕ → ℕ → Mat) (b p : ℕ → Mat)
    (ground_truth_cloud : ℕ → Mat) (step : ℚ) : Except String ℚ := do
  let gamma : ℕ → ℕ → ℚ ←
    if gamma_code = "linear" then .ok probs
    else if gamma_code = "square" then .ok (fun l i => probs l i ^ 2)
    else if gamma_code = "log" then .ok (fun l i => -rlog (1 - probs l i))
    else .error ("Unrecognized gamma value in params: " ++ gamma_code)
  let chamfer_loss := get_chamfer_loss nB nT gamma b p dp ground_truth_cloud
  let entropy_loss ←
    match entropy_params with
    | none => .ok 0
    | some w =>
        get_entropy_loss rlog rexp nB nT probs w.weight
          w.linear_annealing_cutoff w.exp_annealing_rate step
  let dp_reg_loss ←
    match dp_reg_params with
    | none => .ok 0
    | some w =>
        get_dp_reg_loss rexp w.uniform nB nT probs dp w.weight
          w.linear_annealing_cutoff w.exp_annealing_rate step
  return chamfer_loss + entropy_loss + dp_reg_loss

/-- The label-smoothing step of `get_inference`: when `eps > 0`, blend the
softmax output with the uniform distribution over the templates. -/
def smooth_probs (eps : ℚ) (n_templates : ℕ) (probs : List ℚ) : List ℚ :=
  if eps > 0 then probs.map (fun pr => (1 - eps) * pr + eps / n_templates)
  else probs

/-- `np.argmax` on a vector: index of the first occurrence of the maximum
(`0` on the empty list). -/
def np_argmax : List ℚ → ℕ
  | [] => 0
  | x :: xs =>
    let j := np_argmax xs
    if xs.getD j x ≤ x then 0 else j + 1

/-- `np.argsort` on a vector, modelled as a stable ascending sort of the
index range by value. -/
def np_argsort (probs : List ℚ) : List ℕ :=
  List.insertionSort (fun i j => probs.getD i 0 ≤ probs.getD j 0)
    (List.range probs.length)

/-- The mesh dictionary produced by `get_prediction_to_top_k_mesh_fn`. -/
structure MeshPred where
  vertices : Mat
  faces : List (List ℕ)
  original_vertices : Mat
deriving DecidableEq

/-- The mesh dictionary produced by `get_prediction_to_mesh_fn` (its `attrs`
carry the selected template id). -/
structure BestMeshPred where
  vertices : Mat
  faces : List (List ℕ)
  original_vertices : Mat
  template_id : String
deriving DecidableEq

/-- The closure returned by `get_prediction_to_mesh_fn`: reconstruct the
`argmax` template with the original (un-resampled) basis. -/
def prediction_to_mesh (bs ps : ℕ → Mat) (all_faces : ℕ → List (List ℕ))
    (all_vertices : ℕ → Mat) (example_ids : ℕ → String)
    (probs : List ℚ) (dp : ℕ → Mat) : BestMeshPred :=
  let i := np_argmax probs
  { vertices := matMul (bs i) (matAdd (ps i) (dp i))
    faces := all_faces i
    original_vertices := all_vertices i
    template_id := example_ids i }

/-- `get_deformed_mesh` inside `get_prediction_to_top_k_mesh_fn`. -/
def get_deformed_mesh (bs ps : ℕ → Mat) (all_faces : ℕ → List (List ℕ))
    (all_vertices : ℕ → Mat) (i : ℕ) (dp : ℕ → Mat) : MeshPred :=
  { vertices := matMul (bs i) (matAdd (ps i) (dp i))
    faces := all_faces i
    original_vertices := all_vertices i }

/-- The closure returned by `get_prediction_to_top_k_mesh_fn`: the
`probs.argsort()[-3:][::-1]` slice; the requested `top_k` is accepted by the
builder but never used by the closure, exactly as in the source. -/
def prediction_to_top_k_mesh (bs ps : ℕ → Mat) (all_faces : ℕ → List (List ℕ))
    (all_vertices : ℕ → Mat) (top_k : ℕ) (probs : List ℚ) (dp : ℕ → Mat) :
    List MeshPred :=
  let ks := ((np_argsort probs).drop (probs.length - 3)).reverse
  ks.map (fun k => get_deformed_mesh bs ps all_faces all_vertices k dp)

/-- The dictionary produced by `get_segmented_cloud_fn`. -/
structure SegCloudPred where
  points : Mat
  segmentation : Option (List ℕ)
  original_points : Option Mat
deriving DecidableEq

/-- The closure returned by `get_segmented_cloud_fn`; the per-template
annotated FFD data `(b, p)` is `None` when the template is missing from the
annotated FFD dataset (in the source, `b` and `p` are set to `None`
together). -/
def segmented_cloud (bps : ℕ → Option (Mat × Mat))
    (segs : ℕ → Option (List ℕ)) (original_points : ℕ → Option Mat)
    (probs : List ℚ) (dp : ℕ → Mat) : Option SegCloudPred :=
  let i := np_argmax probs
  match bps i with
  | none => none
  | some (b, p) =>
    some { points := matMul b (matAdd p (dp i))
           segmentation := segs i
           original_points := original_points i }

/-- The dictionary produced by `get_segmented_mesh_fn`. -/
structure SegMeshPred where
  faces : Option (List (List ℕ))
  vertices : Mat
  segmentation : List ℕ
  original_points : Option Mat
  original_segmentation : Option (List ℕ)
deriving DecidableEq

/-- The closure returned by `get_segmented_mesh_fn`; `segs i` is `None` when
the template is missing from the zipped mesh/segmentation datasets, while the
FFD data `bs`, `ps` comes from the main FFD dataset and is always present. -/
def segmented_mesh (bs ps : ℕ → Mat) (segs : ℕ → Option (List ℕ))
    (faces : ℕ → Option (List (List ℕ)))
    (original_seg_points : ℕ → Option Mat)
    (original_segs : ℕ → Option (List ℕ)) (probs : List ℚ) (dp : ℕ → Mat) :
    Option SegMeshPred :=
  let i := np_argmax probs
  match segs i with
  | none => none
  | some seg =>
    some { faces := faces i
           vertices := matMul (bs i) (matAdd (ps i) (dp i))
           segmentation := seg
           original_points := original_seg_points i
           original_segmentation := original_segs i }

/-- Real-number semantics of the batch average `tf.reduce_mean(probs, axis=0)`
in `get_entropy_loss`. -/
noncomputable def mean_probs_real (nB : ℕ) (probs : ℕ → ℕ → ℝ) (t : ℕ) : ℝ :=
  (∑ l in Finset.range nB, probs l t) / nB

/-- Real-number semantics of the entropy term
`tf.reduce_sum(mean_probs * tf.log(mean_probs))` of `get_entropy_loss`, with
`tf.log` interpreted as `Real.log`. -/
noncomputable def entropy_term_real (nB nT : ℕ) (probs : ℕ → ℕ → ℝ) : ℝ :=
  ∑ t in Finset.range nT,
    mean_probs_real nB probs t * Real.log (mean_probs_real nB probs t)

/-! ### Helper lemmas -/

/-- Sum of an affine map over a list of rationals. -/
theorem sum_map_affine (c d : ℚ) (ls : List ℚ) :
    (ls.map (fun x => c * x + d)).sum = c * ls.sum + ls.length * d := by
  induction ls with
  | nil => simp
  | cons a t ih => simp [ih]; ring

/-! ### Claims -/

/-- C10: with neither annealing schedule configured, `annealed_weight`
returns the weight unchanged, independently of the training step. -/
theorem C10_annealed_weight_identity (rexp : ℚ → ℚ) (weight step : ℚ) :
    annealed_weight rexp weight none none step = .ok weight := rfl

/-- C9: configuring both annealing schedules is a configuration error (and
the deformation regularizer then errors regardless of its tensor inputs,
i.e. before any compute); with exactly one schedule configured, the annealed
weight is `weight * max (1 - step/cutoff) 0` (linear) or
`weight * exp (-(rate * step))` (exponential). -/
theorem C9_annealed_weight_schedules (rexp : ℚ → ℚ) :
    (∀ weight cutoff rate step : ℚ,
      annealed_weight rexp weight (some cutoff) (some rate) step =
        .error ("At least one of `linear_annealing_cutoff` or " ++
          "`exp_annealing_rate` must be `None`")) ∧
    (∀ weight cutoff step : ℚ,
      annealed_weight rexp weight (some cutoff) none step =
        .ok (weight * max (1 - step / cutoff) 0)) ∧
    (∀ weight rate step : ℚ,
      annealed_weight rexp weight none (some rate) step =
        .ok (weight * rexp (-(rate * step)))) ∧
    (∀ (uniform : Bool) (nB nT : ℕ) (probs : ℕ → ℕ → ℚ) (dp : ℕ → ℕ → Mat)
      (weight cutoff rate step : ℚ),
      get_dp_reg_loss rexp uniform nB nT probs dp weight (some cutoff)
          (some rate) step =
        .error ("At least one of `linear_annealing_cutoff` or " ++
          "`exp_annealing_rate` must be `None`")) := by
  refine ⟨fun _ _ _ _ => rfl, fun _ _ _ => rfl, fun weight rate step => ?_,
    fun uniform nB nT probs dp weight cutoff rate step => ?_⟩
  · simp [annealed_weight, exp_annealing_factor, mul_comm]
  · cases uniform <;> rfl

/-- C8: an unrecognized gamma mode string makes the loss computation fail
with the `Unrecognized gamma value` error, regardless of every tensor input
and of the optional regularizer configurations (i.e. before any of the
Chamfer, entropy, or deformation terms are computed). -/
theorem C8_unrecognized_gamma_error (rlog rexp : ℚ → ℚ) (gamma_code : String)
    (entropy_params : Option WeightParams) (dp_reg_params : Option DpRegParams)
    (nB nT : ℕ) (probs : ℕ → ℕ → ℚ) (dp : ℕ → ℕ → Mat) (b p : ℕ → Mat)
    (ground_truth_cloud : ℕ → Mat) (step : ℚ)
    (h1 : gamma_code ≠ "linear") (h2 : gamma_code ≠ "square")
    (h3 : gamma_code ≠ "log") :
    get_inference_loss rlog rexp gamma_code entropy_params dp_reg_params
        nB nT probs dp b p ground_truth_cloud step =
      .error ("Unrecognized gamma value in params: " ++ gamma_code) := by
  simp only [get_inference_loss, if_neg h1, if_neg h2, if_neg h3]
  rfl

/-- Witness for C8 at the concrete mode string `"cubic"`. -/
theorem C8_unrecognized_gamma_error_witness :
    get_inference_loss id id "cubic" none none 1 1 (fun _ _ => 0)
        (fun _ _ => []) (fun _ => []) (fun _ => []) (fun _ => []) 0 =
      .error ("Unrecognized gamma value in params: " ++ "cubic") :=
  C8_unrecognized_gamma_error id id "cubic" none none 1 1 (fun _ _ => 0)
    (fun _ _ => []) (fun _ => []) (fun _ => []) (fun _ => []) 0
    (by decide) (by decide) (by decide)

/-- C2: smoothing a simplex vector with `eps ∈ (0, 1]` keeps the sum equal
to `1` and bounds every entry below by `eps / n_templates`; with `eps = 0`
the vector is returned unchanged. -/
theorem C2_smooth_probs_invariants (eps : ℚ) (n_templates : ℕ)
    (probs : List ℚ) (hlen : probs.length = n_templates)
    (hsum : probs.sum = 1) (hpos : ∀ pr ∈ probs, 0 ≤ pr)
    (heps0 : 0 < eps) (heps1 : eps ≤ 1) :
    (smooth_probs eps n_templates probs).sum = 1 ∧
    (∀ q ∈ smooth_probs eps n_templates probs, eps / n_templates ≤ q) ∧
    smooth_probs 0 n_templates probs = probs := by
  have hn : (n_templates : ℚ) ≠ 0 := by
    intro h0
    have : n_templates = 0 := by exact_mod_cast h0
    subst this
    rw [List.length_eq_zero] at hlen
    simp [hlen] at hsum
  refine ⟨?_, ?_, by simp [smooth_probs]⟩
  · have hcancel : (n_templates : ℚ) * (eps / n_templates) = eps := by
      field_simp
    rw [smooth_probs, if_pos heps0, sum_map_affine, hsum, hlen, hcancel]
    ring
  · intro q hq
    rw [smooth_probs, if_pos heps0] at hq
    obtain ⟨pr, hpr, rfl⟩ := List.mem_map.mp hq
    have h1e : 0 ≤ 1 - eps := by linarith
    have := mul_nonneg h1e (hpos pr hpr)
    linarith

/-- Witness for C2 at `eps = 1/10`, two templates, `probs = [1/2, 1/2]`. -/
theorem C2_smooth_probs_invariants_witness :
    (smooth_probs (1 / 10) 2 [1 / 2, 1 / 2]).sum = 1 ∧
    (∀ q ∈ smooth_probs (1 / 10) 2 [1 / 2, 1 / 2], (1 / 10 : ℚ) / (2 : ℕ) ≤ q) ∧
    smooth_probs 0 2 [1 / 2, 1 / 2] = [1 / 2, 1 / 2] :=
  C2_smooth_probs_invariants (1 / 10) 2 [1 / 2, 1 / 2] rfl (by norm_num)
    (by norm_num) (by norm_num) (by norm_num)

/-- C7: in "uniform" mode the deformation regularizer is the annealed weight
times the sum of all squared `dp` entries, independent of `probs`; in default
mode it is the annealed weight times the per-template squared-`dp` sums
weighted by `probs`. -/
theorem C7_dp_reg_modes (rexp : ℚ → ℚ) (nB nT : ℕ) (probs : ℕ → ℕ → ℚ)
    (dp : ℕ → ℕ → Mat) (weight : ℚ)
    (linear_annealing_cutoff exp_annealing_rate : Option ℚ) (step wv : ℚ)
    (hw : annealed_weight rexp weight linear_annealing_cutoff
      exp_annealing_rate step = .ok wv) :
    get_dp_reg_loss rexp true nB nT probs dp weight linear_annealing_cutoff
        exp_annealing_rate step =
      .ok (wv * ∑ l in Finset.range nB, ∑ i in Finset.range nT,
        sqSum (dp l i)) ∧
    (∀ probs2 : ℕ → ℕ → ℚ,
      get_dp_reg_loss rexp true nB nT probs2 dp weight
          linear_annealing_cutoff exp_annealing_rate step =
        get_dp_reg_loss rexp true nB nT probs dp weight
          linear_annealing_cutoff exp_annealing_rate step) ∧
    get_dp_reg_loss rexp false nB nT probs dp weight linear_annealing_cutoff
        exp_annealing_rate step =
      .ok (wv * ∑ l in Finset.range nB, ∑ i in Finset.range nT,
        probs l i * sqSum (dp l i)) := by
  have key : ∀ u : Bool,
      get_dp_reg_loss rexp u nB nT probs dp weight linear_annealing_cutoff
          exp_annealing_rate step =
        .ok ((if u then
            ∑ l in Finset.range nB, ∑ i in Finset.range nT, sqSum (dp l i)
          else
            ∑ l in Finset.range nB, ∑ i in Finset.range nT,
              sqSum (dp l i) * probs l i) * wv) := by
    intro u
    unfold get_dp_reg_loss
    rw [hw]
    rfl
  refine ⟨?_, fun probs2 => rfl, ?_⟩
  · rw [key true, if_pos rfl]
    exact congrArg Except.ok (mul_comm _ _)
  · rw [key false, if_neg (by simp)]
    refine congrArg Except.ok ?_
    rw [mul_comm]
    exact congrArg (fun s => wv * s) (Finset.sum_congr rfl fun l _ =>
      Finset.sum_congr rfl fun i _ => mul_comm _ _)

/-- Witness for C7 with no annealing schedule configured: the annealed
weight is the raw weight. -/
theorem C7_dp_reg_modes_witness :
    get_dp_reg_loss id true 1 1 (fun _ _ => 1 / 2) (fun _ _ => [[1, 2]]) 2
        none none 0 =
      .ok (2 * ∑ l in Finset.range 1, ∑ i in Finset.range 1,
        sqSum ((fun _ _ => [[(1 : ℚ), 2]]) l i)) ∧
    (∀ probs2 : ℕ → ℕ → ℚ,
      get_dp_reg_loss id true 1 1 probs2 (fun _ _ => [[1, 2]]) 2
          none none 0 =
        get_dp_reg_loss id true 1 1 (fun _ _ => 1 / 2) (fun _ _ => [[1, 2]]) 2
          none none 0) ∧
    get_dp_reg_loss id false 1 1 (fun _ _ => 1 / 2) (fun _ _ => [[1, 2]]) 2
        none none 0 =
      .ok (2 * ∑ l in Finset.range 1, ∑ i in Finset.range 1,
        (fun _ _ => (1 : ℚ) / 2) l i * sqSum ((fun _ _ => [[(1 : ℚ), 2]]) l i)) :=
  C7_dp_reg_modes id 1 1 (fun _ _ => 1 / 2) (fun _ _ => [[1, 2]]) 2
    none none 0 2 rfl

/-- C1: for each recognized gamma mode, the inference loss with both
regularizers disabled is the sum over the batch and the templates of
`gamma(probs) * chamfer(reconstructed cloud, ground truth)`, with
`gamma(p) = p` for "linear" (the default), `p^2` for "square" and
`-log (1 - p)` for "log". -/
theorem C1_weighted_chamfer_loss (rlog rexp : ℚ → ℚ) (nB nT : ℕ)
    (probs : ℕ → ℕ → ℚ) (dp : ℕ → ℕ → Mat) (b p : ℕ → Mat)
    (ground_truth_cloud : ℕ → Mat) (step : ℚ) :
    get_inference_loss rlog rexp "linear" none none nB nT probs dp b p
        ground_truth_cloud step =
      .ok (∑ l in Finset.range nB, ∑ i in Finset.range nT,
        probs l i * chamfer (matMul (b i) (matAdd (p i) (dp l i)))
          (ground_truth_cloud l)) ∧
    get_inference_loss rlog rexp "square" none none nB nT probs dp b p
        ground_truth_cloud step =
      .ok (∑ l in Finset.range nB, ∑ i in Finset.range nT,
        probs l i ^ 2 * chamfer (matMul (b i) (matAdd (p i) (dp l i)))
          (ground_truth_cloud l)) ∧
    get_inference_loss rlog rexp "log" none none nB nT probs dp b p
        ground_truth_cloud step =
      .ok (∑ l in Finset.range nB, ∑ i in Finset.range nT,
        -rlog (1 - probs l i) *
          chamfer (matMul (b i) (matAdd (p i) (dp l i)))
          (ground_truth_cloud l)) := by
  refine ⟨?_, ?_, ?_⟩ <;>
    exact congrArg Except.ok (by rw [add_zero, add_zero]; rfl)

/-- `np_argmax` returns an in-range index of a maximal entry, and every
earlier entry is strictly smaller (first-occurrence / lowest-index
tie-break, as in `np.argmax`). -/
theorem np_argmax_spec (probs : List ℚ) (h : probs ≠ []) :
    np_argmax probs < probs.length ∧
    (∀ k < probs.length, probs.getD k 0 ≤ probs.getD (np_argmax probs) 0) ∧
    (∀ k < np_argmax probs, probs.getD k 0 < probs.getD (np_argmax probs) 0) := by
  induction probs with
  | nil => exact absurd rfl h
  | cons x xs ih =>
    by_cases hxs : xs = []
    · subst hxs
      refine ⟨by simp [np_argmax], ?_, ?_⟩
      · intro k hk
        have : k = 0 := by simpa using hk
        subst this
        simp [np_argmax]
      · intro k hk
        simp [np_argmax] at hk
    · obtain ⟨hjlen, hmax, hfirst⟩ := ih hxs
      have hgd : xs.getD (np_argmax xs) x = xs.getD (np_argmax xs) 0 := by
        rw [List.getD_eq_getElem _ _ hjlen, List.getD_eq_getElem _ _ hjlen]
      by_cases hc : xs.getD (np_argmax xs) x ≤ x
      · have hres : np_argmax (x :: xs) = 0 := by
          simp only [np_argmax]
          rw [if_pos hc]
        rw [hres]
        refine ⟨Nat.succ_pos _, ?_, fun k hk => absurd hk (Nat.not_lt_zero _)⟩
        intro k hk
        match k with
        | 0 => simp
        | Nat.succ k =>
          simp only [List.getD_cons_succ, List.getD_cons_zero]
          have h1 : xs.getD k 0 ≤ xs.getD (np_argmax xs) 0 :=
            hmax k (by simpa using hk)
          have h2 : xs.getD (np_argmax xs) 0 ≤ x := hgd ▸ hc
          exact le_trans h1 h2
      · have hres : np_argmax (x :: xs) = np_argmax xs + 1 := by
          simp only [np_argmax]
          rw [if_neg hc]
        have hlt : x < xs.getD (np_argmax xs) 0 := hgd ▸ not_le.mp hc
        rw [hres]
        refine ⟨by simpa using Nat.succ_lt_succ hjlen, ?_, ?_⟩
        · intro k hk
          match k with
          | 0 => simpa using le_of_lt hlt
          | Nat.succ k =>
            simp only [List.getD_cons_succ]
            exact hmax k (by simpa using hk)
        · intro k hk
          match k with
          | 0 => simpa using hlt
          | Nat.succ k =>
            simp only [List.getD_cons_succ]
            exact hfirst k (by simpa using hk)

/-- C4: the best-mesh post-processor selects `i = argmax(probs)` (maximal
entry, lowest index on ties), returns vertices `B_i ⬝ (P_i + dp_i)` computed
with the original un-resampled basis, template `i`'s faces, and template
`i`'s undeformed vertices. -/
theorem C4_best_mesh_prediction (bs ps : ℕ → Mat)
    (all_faces : ℕ → List (List ℕ)) (all_vertices : ℕ → Mat)
    (example_ids : ℕ → String) (probs : List ℚ) (dp : ℕ → Mat)
    (h : probs ≠ []) :
    np_argmax probs < probs.length ∧
    (∀ k < probs.length, probs.getD k 0 ≤ probs.getD (np_argmax probs) 0) ∧
    (∀ k < np_argmax probs, probs.getD k 0 < probs.getD (np_argmax probs) 0) ∧
    (prediction_to_mesh bs ps all_faces all_vertices example_ids probs
        dp).vertices =
      matMul (bs (np_argmax probs))
        (matAdd (ps (np_argmax probs)) (dp (np_argmax probs))) ∧
    (prediction_to_mesh bs ps all_faces all_vertices example_ids probs
        dp).faces = all_faces (np_argmax probs) ∧
    (prediction_to_mesh bs ps all_faces all_vertices example_ids probs
        dp).original_vertices = all_vertices (np_argmax probs) := by
  obtain ⟨h1, h2, h3⟩ := np_argmax_spec probs h
  exact ⟨h1, h2, h3, rfl, rfl, rfl⟩

/-- Witness for C4 on `probs = [1, 4, 1]` with concrete template data. -/
theorem C4_best_mesh_prediction_witness :
    np_argmax [1, 4, 1] < ([1, 4, 1] : List ℚ).length ∧
    (∀ k < ([1, 4, 1] : List ℚ).length,
      ([1, 4, 1] : List ℚ).getD k 0 ≤
        ([1, 4, 1] : List ℚ).getD (np_argmax [1, 4, 1]) 0) ∧
    (∀ k < np_argmax [1, 4, 1],
      ([1, 4, 1] : List ℚ).getD k 0 <
        ([1, 4, 1] : List ℚ).getD (np_argmax [1, 4, 1]) 0) ∧
    (prediction_to_mesh (fun _ => [[1]]) (fun _ => [[0]]) (fun _ => [[0, 1, 2]])
        (fun _ => [[2]]) (fun _ => "tmpl") [1, 4, 1] (fun _ => [[1]])).vertices =
      matMul ((fun _ : ℕ => [[(1 : ℚ)]]) (np_argmax [1, 4, 1]))
        (matAdd ((fun _ : ℕ => [[(0 : ℚ)]]) (np_argmax [1, 4, 1]))
          ((fun _ : ℕ => [[(1 : ℚ)]]) (np_argmax [1, 4, 1]))) ∧
    (prediction_to_mesh (fun _ => [[1]]) (fun _ => [[0]]) (fun _ => [[0, 1, 2]])
        (fun _ => [[2]]) (fun _ => "tmpl") [1, 4, 1] (fun _ => [[1]])).faces =
      (fun _ : ℕ => [[0, 1, 2]]) (np_argmax [1, 4, 1]) ∧
    (prediction_to_mesh (fun _ => [[1]]) (fun _ => [[0]]) (fun _ => [[0, 1, 2]])
        (fun _ => [[2]]) (fun _ => "tmpl") [1, 4, 1]
        (fun _ => [[1]])).original_vertices =
      (fun _ : ℕ => [[(2 : ℚ)]]) (np_argmax [1, 4, 1]) :=
  C4_best_mesh_prediction (fun _ => [[1]]) (fun _ => [[0]])
    (fun _ => [[0, 1, 2]]) (fun _ => [[2]]) (fun _ => "tmpl") [1, 4, 1]
    (fun _ => [[1]]) (List.cons_ne_nil _ _)

/-- `np_argsort` sorts the index range of the vector ascending by value. -/
theorem np_argsort_sorted (probs : List ℚ) :
    List.Sorted (fun i j => probs.getD i 0 ≤ probs.getD j 0)
      (np_argsort probs) := by
  haveI : IsTotal ℕ (fun i j => probs.getD i 0 ≤ probs.getD j 0) :=
    ⟨fun _ _ => le_total _ _⟩
  haveI : IsTrans ℕ (fun i j => probs.getD i 0 ≤ probs.getD j 0) :=
    ⟨fun _ _ _ => le_trans⟩
  exact List.sorted_insertionSort _ _

/-- `np_argsort` is a permutation of the index range. -/
theorem np_argsort_perm (probs : List ℚ) :
    List.Perm (np_argsort probs) (List.range probs.length) :=
  List.perm_insertionSort _ _

/-- C3 counterexample: on four templates the top-k closure built with
`top_k = 2` still returns three meshes, so it does not return "exactly k
meshes". -/
theorem C3_top_k_count_counterexample :
    (prediction_to_top_k_mesh (fun _ => [[1]]) (fun _ => [[0]])
        (fun _ => [[0, 1, 2]]) (fun _ => [[2]]) 2 [1, 4, 3, 2]
        (fun _ => [[0]])).length ≠ 2 := by
  decide

/-- C3 (amended): the top-k closure ignores the requested `top_k` and always
returns the `min 3 n_templates` highest-probability template indices, as
deformed meshes, ordered by non-increasing probability; every returned index
is in range and its probability is at least that of every unselected index. -/
theorem C3_top_k_mesh_amended (bs ps : ℕ → Mat)
    (all_faces : ℕ → List (List ℕ)) (all_vertices : ℕ → Mat) (top_k : ℕ)
    (probs : List ℚ) (dp : ℕ → Mat) :
    (prediction_to_top_k_mesh bs ps all_faces all_vertices top_k probs
        dp).length = min 3 probs.length ∧
    prediction_to_top_k_mesh bs ps all_faces all_vertices top_k probs dp =
      (((np_argsort probs).drop (probs.length - 3)).reverse).map
        (fun k => get_deformed_mesh bs ps all_faces all_vertices k dp) ∧
    (((np_argsort probs).drop (probs.length - 3)).reverse).Pairwise
      (fun a c => probs.getD c 0 ≤ probs.getD a 0) ∧
    (∀ a ∈ ((np_argsort probs).drop (probs.length - 3)).reverse,
      a < probs.length) ∧
    (∀ a ∈ ((np_argsort probs).drop (probs.length - 3)).reverse,
      ∀ j < probs.length,
        j ∉ ((np_argsort probs).drop (probs.length - 3)).reverse →
          probs.getD j 0 ≤ probs.getD a 0) := by
  have hlen : (np_argsort probs).length = probs.length := by
    simpa using (np_argsort_perm probs).length_eq
  have hmem : ∀ a ∈ ((np_argsort probs).drop (probs.length - 3)).reverse,
      a < probs.length := by
    intro a ha
    rw [List.mem_reverse] at ha
    have : a ∈ np_argsort probs :=
      (List.drop_sublist _ _).mem ha
    rw [(np_argsort_perm probs).mem_iff, List.mem_range] at this
    exact this
  refine ⟨?_, rfl, ?_, hmem, ?_⟩
  · simp only [prediction_to_top_k_mesh, List.length_map, List.length_reverse,
      List.length_drop, hlen]
    omega
  · have hpd : ((np_argsort probs).drop (probs.length - 3)).Pairwise
        (fun i j => probs.getD i 0 ≤ probs.getD j 0) :=
      (np_argsort_sorted probs).sublist
        (List.drop_sublist (probs.length - 3) (np_argsort probs))
    rw [← List.pairwise_reverse] at hpd
    exact hpd
  · intro a ha j hj hnj
    have hsplit := List.take_append_drop (probs.length - 3) (np_argsort probs)
    have hpw : ((np_argsort probs).take (probs.length - 3) ++
        (np_argsort probs).drop (probs.length - 3)).Pairwise
        (fun i j => probs.getD i 0 ≤ probs.getD j 0) := by
      rw [hsplit]
      exact np_argsort_sorted probs
    have hcross := (List.pairwise_append.mp hpw).2.2
    have hjmem : j ∈ np_argsort probs := by
      rw [(np_argsort_perm probs).mem_iff, List.mem_range]
      exact hj
    rw [← hsplit, List.mem_append] at hjmem
    rcases hjmem with hjt | hjd
    · exact hcross j hjt a (List.mem_reverse.mp ha)
    · exact absurd (List.mem_reverse.mpr hjd) hnj

/-- C5 counterexample: a template whose segmentation entry is absent but
whose annotated FFD basis is present makes the segmented-cloud closure
return a non-`None` result (with a `None` segmentation field inside), so
"basis or segmentation absent implies the functions return None" fails as
stated. -/
theorem C5_segmented_counterexample :
    (fun _ : ℕ => (none : Option (List ℕ))) (np_argmax [1]) = none ∧
    segmented_cloud (fun _ => some ([[1]], [[0]])) (fun _ => none)
        (fun _ => none) [1] (fun _ => [[0]]) ≠ none := by
  constructor
  · rfl
  · decide

/-- C5 (amended): the segmented-cloud closure returns `None` exactly when the
argmax-selected template's annotated FFD data `(b, p)` is absent (an absent
segmentation entry alone yields a result whose segmentation field is `None`),
and the segmented-mesh closure returns `None` exactly when the selected
template's segmentation entry is absent; neither raises. -/
theorem C5_segmented_none_amended (bps : ℕ → Option (Mat × Mat))
    (segs : ℕ → Option (List ℕ)) (original_points : ℕ → Option Mat)
    (bs ps : ℕ → Mat) (msegs : ℕ → Option (List ℕ))
    (faces : ℕ → Option (List (List ℕ)))
    (original_seg_points : ℕ → Option Mat)
    (original_segs : ℕ → Option (List ℕ)) (probs : List ℚ) (dp : ℕ → Mat) :
    (segmented_cloud bps segs original_points probs dp = none ↔
      bps (np_argmax probs) = none) ∧
    (segmented_mesh bs ps msegs faces original_seg_points original_segs
        probs dp = none ↔
      msegs (np_argmax probs) = none) := by
  constructor
  · cases h : bps (np_argmax probs) with
    | none => simp [segmented_cloud, h]
    | some bp =>
      obtain ⟨b, p⟩ := bp
      simp [segmented_cloud, h]
  · cases h : msegs (np_argmax probs) with
    | none => simp [segmented_mesh, h]
    | some seg => simp [segmented_mesh, h]

/-- C6 counterexample: with one batch element and two templates, the
non-uniform mean distribution `(3/4, 1/4)` gives a strictly LARGER (less
negative) entropy term than the uniform `(1/2, 1/2)`, so the entropy term is
not maximal at the uniform distribution. -/
theorem C6_entropy_counterexample :
    entropy_term_real 1 2 (fun _ _ => 1 / 2) <
      entropy_term_real 1 2 (fun _ t => if t = 0 then 3 / 4 else 1 / 4) := by
  have h12 : Real.log (1 / 2 : ℝ) = -Real.log 2 := by
    rw [one_div, Real.log_inv]
  have h14 : Real.log (1 / 4 : ℝ) = -(2 * Real.log 2) := by
    rw [one_div, Real.log_inv, show (4 : ℝ) = 2 ^ 2 by norm_num, Real.log_pow]
    push_cast
    ring
  have h34 : Real.log (3 / 4 : ℝ) = Real.log 3 - 2 * Real.log 2 := by
    rw [Real.log_div (by norm_num) (by norm_num),
      show (4 : ℝ) = 2 ^ 2 by norm_num, Real.log_pow]
    push_cast
    ring
  have hkey : 4 * Real.log 2 < 3 * Real.log 3 := by
    have h16 : Real.log 16 = 4 * Real.log 2 := by
      rw [show (16 : ℝ) = 2 ^ 4 by norm_num, Real.log_pow]
      push_cast
      ring
    have h27 : Real.log 27 = 3 * Real.log 3 := by
      rw [show (27 : ℝ) = 3 ^ 3 by norm_num, Real.log_pow]
      push_cast
      ring
    rw [← h16, ← h27]
    exact Real.log_lt_log (by norm_num) (by norm_num)
  have e1 : entropy_term_real 1 2 (fun _ _ => 1 / 2) =
      1 / 2 * Real.log (1 / 2) + 1 / 2 * Real.log (1 / 2) := by
    simp [entropy_term_real, mean_probs_real, Finset.sum_range_succ]
    ring
  have e2 : entropy_term_real 1 2 (fun _ t => if t = 0 then 3 / 4 else 1 / 4) =
      3 / 4 * Real.log (3 / 4) + 1 / 4 * Real.log (1 / 4) := by
    simp [entropy_term_real, mean_probs_real, Finset.sum_range_succ]
  rw [e1, e2, h12, h14, h34]
  linarith

/-- C6 (amended): over mean distributions with full support, the entropy
term `sum(mean_probs * log(mean_probs))` is bounded below by `-log n` and
attains that minimum exactly at the uniform distribution (so it is MINIMAL,
most negative, at uniform — not maximal as claimed). -/
theorem C6_entropy_minimal_at_uniform (nB nT : ℕ) (probs : ℕ → ℕ → ℝ)
    (hT : 0 < nT)
    (hpos : ∀ t < nT, 0 < mean_probs_real nB probs t)
    (hsum : ∑ t in Finset.range nT, mean_probs_real nB probs t = 1) :
    -Real.log nT ≤ entropy_term_real nB nT probs ∧
    (entropy_term_real nB nT probs = -Real.log nT ↔
      ∀ t < nT, mean_probs_real nB probs t = 1 / nT) := by
  set m := mean_probs_real nB probs with hm
  set T' : ℝ := (nT : ℝ) with hT'
  have hT0 : (0 : ℝ) < T' := by
    rw [hT']
    exact_mod_cast hT
  have hTne : T' ≠ 0 := ne_of_gt hT0
  have hg : ∀ t ∈ Finset.range nT,
      0 ≤ m t * Real.log (m t * T') - (m t - 1 / T') := by
    intro t ht
    have hmt := hpos t (Finset.mem_range.mp ht)
    have hx : 0 < m t * T' := mul_pos hmt hT0
    have hlog : 1 - (m t * T')⁻¹ ≤ Real.log (m t * T') := by
      have h := Real.log_le_sub_one_of_pos (inv_pos.mpr hx)
      rw [Real.log_inv] at h
      linarith
    have hmul : m t * (1 - (m t * T')⁻¹) ≤ m t * Real.log (m t * T') :=
      mul_le_mul_of_nonneg_left hlog (le_of_lt hmt)
    have hclean : m t * (1 - (m t * T')⁻¹) = m t - 1 / T' := by
      have hmne : m t ≠ 0 := ne_of_gt hmt
      field_simp
      ring
    linarith
  have hsum_g :
      ∑ t in Finset.range nT, (m t * Real.log (m t * T') - (m t - 1 / T')) =
        entropy_term_real nB nT probs + Real.log T' := by
    have hexpand : ∀ t ∈ Finset.range nT,
        m t * Real.log (m t * T') - (m t - 1 / T') =
          m t * Real.log (m t) + m t * Real.log T' - m t + 1 / T' := by
      intro t ht
      rw [Real.log_mul (ne_of_gt (hpos t (Finset.mem_range.mp ht))) hTne]
      ring
    rw [Finset.sum_congr rfl hexpand]
    have hsplit :
        ∑ t in Finset.range nT,
            (m t * Real.log (m t) + m t * Real.log T' - m t + 1 / T') =
          (∑ t in Finset.range nT, m t * Real.log (m t)) +
            (∑ t in Finset.range nT, m t) * Real.log T' -
            (∑ t in Finset.range nT, m t) + nT * (1 / T') := by
      rw [Finset.sum_add_distrib, Finset.sum_sub_distrib,
        Finset.sum_add_distrib, ← Finset.sum_mul, Finset.sum_const,
        Finset.card_range, nsmul_eq_mul]
    have hTT : (nT : ℝ) * (1 / T') = 1 := by
      rw [hT']
      field_simp
    rw [hsplit, hsum, hTT]
    have hent : entropy_term_real nB nT probs =
        ∑ t in Finset.range nT, m t * Real.log (m t) := rfl
    rw [hent]
    ring
  have hge : 0 ≤ entropy_term_real nB nT probs + Real.log T' := by
    rw [← hsum_g]
    exact Finset.sum_nonneg hg
  refine ⟨by linarith, ?_, ?_⟩
  · intro heq
    have hzero :
        ∑ t in Finset.range nT,
          (m t * Real.log (m t * T') - (m t - 1 / T')) = 0 := by
      rw [hsum_g, heq]
      ring
    have hall := (Finset.sum_eq_zero_iff_of_nonneg hg).mp hzero
    intro t ht
    have hgt0 := hall t (Finset.mem_range.mpr ht)
    by_contra hne
    have hmt := hpos t ht
    have hx : 0 < m t * T' := mul_pos hmt hT0
    have hxne : m t * T' ≠ 1 := by
      intro h1
      apply hne
      field_simp
      linarith [h1]
    have hstrict : 1 - (m t * T')⁻¹ < Real.log (m t * T') := by
      have h := Real.log_lt_sub_one_of_pos (inv_pos.mpr hx)
        (fun h => hxne (by rw [← inv_inv (m t * T'), h, inv_one]))
      rw [Real.log_inv] at h
      linarith
    have hmul : m t * (1 - (m t * T')⁻¹) < m t * Real.log (m t * T') :=
      (mul_lt_mul_left hmt).mpr hstrict
    have hclean : m t * (1 - (m t * T')⁻¹) = m t - 1 / T' := by
      have hmne : m t ≠ 0 := ne_of_gt hmt
      field_simp
      ring
    rw [hclean] at hmul
    linarith [hgt0, hmul]
  · intro hu
    have hcongr : entropy_term_real nB nT probs =
        ∑ t in Finset.range nT, (1 / T') * Real.log (1 / T') := by
      have hent : entropy_term_real nB nT probs =
          ∑ t in Finset.range nT, m t * Real.log (m t) := rfl
      rw [hent]
      exact Finset.sum_congr rfl fun t ht => by
        rw [hu t (Finset.mem_range.mp ht)]
    rw [hcongr, Finset.sum_const, Finset.card_range, nsmul_eq_mul, one_div,
      Real.log_inv]
    have h1 : (nT : ℝ) * T'⁻¹ = 1 := by
      rw [hT']
      field_simp
    rw [← mul_assoc, mul_comm ((nT : ℝ)) (T'⁻¹)]
    rw [mul_comm (T'⁻¹ * (nT : ℝ)) (-Real.log T')]
    rw [mul_comm (T'⁻¹) ((nT : ℝ)), h1, mul_one]

/-- Witness for the amended C6 at the non-uniform mean `(3/4, 1/4)` over two
templates. -/
theorem C6_entropy_minimal_at_uniform_witness :
    -Real.log ((2 : ℕ) : ℝ) ≤
      entropy_term_real 1 2 (fun _ t => if t = 0 then 3 / 4 else 1 / 4) ∧
    (entropy_term_real 1 2 (fun _ t => if t = 0 then 3 / 4 else 1 / 4) =
        -Real.log ((2 : ℕ) : ℝ) ↔
      ∀ t < 2, mean_probs_real 1 (fun _ t => if t = 0 then 3 / 4 else 1 / 4) t =
        1 / ((2 : ℕ) : ℝ)) :=
  C6_entropy_minimal_at_uniform 1 2 (fun _ t => if t = 0 then 3 / 4 else 1 / 4)
    (by norm_num)
    (by
      intro t ht
      interval_cases t <;>
        norm_num [mean_probs_real, Finset.sum_range_one])
    (by norm_num [mean_probs_real, Finset.sum_range_succ, Finset.sum_range_one])
